import Mathlib

/-!
Verification development for the patent-assistant repository
(`db_api_server_agent.py`, `app_patent_assistant.py`).

Shallow embedding conventions:
* Python strings are embedded as `List Char` (`Str`), so everything is
  executable and decidable.
* The FAISS retriever is an opaque parameter
  `retr : Str → Nat → Except Str (List SDoc)` (a keyword/top-k similarity
  search that may raise an exception, carried as `Except.error`).
* The LLM completion calls are opaque string-to-string parameters.
* HTTP failures (`HTTPException`) are `Except.error` values carrying the
  status code and the detail message.
-/

namespace PatentRag

abbrev Str := List Char

/-- Whitespace characters (models Python `str.strip` / regex `\s` on the
ASCII range actually exercised by this program). -/
def isWhite (c : Char) : Bool :=
  c = ' ' || c = '\t' || c = '\n' || c = '\r' || c = Char.ofNat 11 || c = Char.ofNat 12

/-! ## Server: `db_api_server_agent.py` -/

/-- A retrieved document: `page_content` plus the `source` entry of its
metadata mapping (`doc.metadata.get('source')`, hence `Option`). -/
structure SDoc where
  page_content : Str
  source : Option Str
deriving DecidableEq, Repr

/-- The `SearchRequest` pydantic model: `db_id`, `keywords`,
`k_per_keyword` (server-side default 5). -/
structure SearchRequest where
  db_id : Str
  keywords : List Str
  k_per_keyword : Nat := 5
deriving DecidableEq, Repr

/-- An `HTTPException`: status code and detail message. -/
structure HErr where
  status : Nat
  detail : Str
deriving DecidableEq, Repr

/-- The opaque per-index retriever: keyword and `k` in, documents out,
or a raised exception (`Except.error` with the exception text). -/
abbrev RetrFn := Str → Nat → Except Str (List SDoc)

/-- The inner `for doc in retrieved_docs` loop body of
`search_by_keywords`: append `doc` to `all_retrieved_docs` and its source
to `unique_doc_sources` unless the source was already seen. -/
def dedupPass : List SDoc → List SDoc → List (Option Str) →
    List SDoc × List (Option Str)
  | [], all, seen => (all, seen)
  | d :: ds, all, seen =>
    if d.source ∈ seen then dedupPass ds all seen
    else dedupPass ds (all ++ [d]) (seen ++ [d.source])

/-- The `for keyword in request.keywords` loop of `search_by_keywords`.
State: `all_retrieved_docs`, `unique_doc_sources`, and the Python local
`retrieved_docs` (the raw result list of the most recent iteration,
`none` while still unbound).  Any retriever exception aborts the loop. -/
def searchLoop (retr : RetrFn) (k : Nat) :
    List Str → List SDoc → List (Option Str) → Option (List SDoc) →
    Except Str (List SDoc × List (Option Str) × Option (List SDoc))
  | [], all, seen, last => Except.ok (all, seen, last)
  | kw :: rest, all, seen, _last =>
    match retr kw k with
    | .error e => .error e
    | .ok docs =>
      let p := dedupPass docs all seen
      searchLoop retr k rest p.1 p.2 (some docs)

/-- Detail message of the 404 branch:
`f"'{request.db_id}' DB를 찾을 수 없습니다."`. -/
def err404msg (id : Str) : Str :=
  "'".toList ++ id ++ "' DB를 찾을 수 없습니다.".toList

/-- Detail message of the 500 branch:
`f"키워드 검색 중 서버 오류 발생: {e}"`. -/
def err500msg (e : Str) : Str :=
  "키워드 검색 중 서버 오류 발생: ".toList ++ e

/-- The `NameError` Python raises when the handler evaluates
`retrieved_docs` after a loop over zero keywords left it unbound. -/
def nameErrMsg : Str :=
  "name 'retrieved_docs' is not defined".toList

/-- The `/search_by_keywords` endpoint.  `available` is the
`available_dbs` mapping.  Faithful to the source, including the final
`results = [... for doc in retrieved_docs]` line, which reads the raw
result list of the LAST keyword (not `all_retrieved_docs`), and the
`NameError` (caught by the `except` clause, hence a 500) when
`request.keywords` is empty. -/
def search_by_keywords (available : Str → Option RetrFn)
    (req : SearchRequest) : Except HErr (List SDoc) :=
  match available req.db_id with
  | none => .error ⟨404, err404msg req.db_id⟩
  | some retr =>
    match searchLoop retr req.k_per_keyword req.keywords [] [] none with
    | .error e => .error ⟨500, err500msg e⟩
    | .ok (_, _, none) => .error ⟨500, err500msg nameErrMsg⟩
    | .ok (_, _, some lastDocs) => .ok lastDocs

/-- The server's `db_folders` mapping: its only key is `"core_patents"`. -/
def db_folders : List (Str × Str) :=
  [("core_patents".toList, "faiss_index_core_patents_gpu".toList)]

/-- `available_dbs`: the subset of `db_folders` whose folder exists on
disk (`ex`), each loaded into an index (`load`). -/
def available_dbs (ex : Str → Bool) (load : Str → RetrFn) :
    Str → Option RetrFn := fun id =>
  match db_folders.find? (fun p => p.1 == id) with
  | some p => if ex p.2 then some (load p.2) else none
  | none => none

/-! ## Client: `app_patent_assistant.py` -/

/-- The separator class `[\s.-]` of `PATENT_NUMBER_REGEX`. -/
def isSepCh (c : Char) : Bool := isWhite c || c = '.' || c = '-'

/-- The class `[A-Z\d]` under `re.IGNORECASE` (kind-code characters). -/
def isKindCh (c : Char) : Bool := c.isAlpha || c.isDigit

/-- Case-insensitive test for the office codes `US|KR|CN|JP|EP`. -/
def officeOk (a b : Char) : Bool :=
  (a.toLower = 'u' && b.toLower = 's') || (a.toLower = 'k' && b.toLower = 'r') ||
  (a.toLower = 'c' && b.toLower = 'n') || (a.toLower = 'j' && b.toLower = 'p') ||
  (a.toLower = 'e' && b.toLower = 'p')

/-- Length of the maximal leading digit run. -/
def digitCount : Str → Nat
  | [] => 0
  | c :: cs => if c.isDigit then digitCount cs + 1 else 0

/-- Alternative of `(?:US|KR|CN|JP|EP)`: the one way (if any) to consume
the two-character office code, as a backtracking option list. -/
def officeOpts : Str → List Str
  | a :: b :: rest => if officeOk a b then [rest] else []
  | _ => []

/-- `[\s.-]?` as a backtracking option list, greedy first (consume the
separator if one is there, else skip). -/
def sepOpt : Str → List Str
  | [] => [[]]
  | c :: cs => if isSepCh c then [cs, c :: cs] else [c :: cs]

/-- `\d{lo,}` as a backtracking option list: consume `j` leading digits,
for `j` from the full run length down to `lo`, greedy first. -/
def digOpts (lo : Nat) (s : Str) : List Str :=
  let n := digitCount s
  if n < lo then []
  else (List.range (n + 1 - lo)).map (fun i => s.drop (n - i))

/-- Trailing `[A-Z\d]*`: nothing follows it in the pattern, so the greedy
maximal take is the one the regex engine commits to. -/
def kindsDrop (s : Str) : Str := s.dropWhile isKindCh

/-- `PATENT_NUMBER_REGEX` matched at the head of `s`:
`(?:US|KR|CN|JP|EP)[\s.-]?\d{4,}[\s.-]?\d+[A-Z\d]*` with `re.IGNORECASE`.
Options are explored in the engine's backtracking priority order
(left-to-right, greedy first); the head of the list is the committed
match.  Returns the length of the matched text. -/
def matchAt (s : Str) : Option Nat :=
  let rests := (officeOpts s).flatMap (fun r1 =>
    (sepOpt r1).flatMap (fun r2 =>
      (digOpts 4 r2).flatMap (fun r3 =>
        (sepOpt r3).flatMap (fun r4 =>
          (digOpts 1 r4).map kindsDrop))))
  match rests with
  | [] => none
  | rest :: _ => some (s.length - rest.length)

/-- `PATENT_NUMBER_REGEX.search(question)`: the leftmost position at
which the pattern matches wins; `group(1)` is the matched text. -/
def patent_search : Str → Option Str
  | [] => none
  | c :: cs =>
    match matchAt (c :: cs) with
    | some len => some ((c :: cs).take len)
    | none => patent_search cs

/-- The two routing modes of the main Q&A logic. -/
inductive Mode where
  | directLookup
  | researchSynthesis
deriving DecidableEq, Repr

/-- `if patent_match: ... else: ...`. -/
def classify_mode (q : Str) : Mode :=
  match patent_search q with
  | some _ => .directLookup
  | none => .researchSynthesis

/-- Python `str.strip()`. -/
def pyStrip (s : Str) : Str :=
  ((s.dropWhile isWhite).reverse.dropWhile isWhite).reverse

/-- Python `str.split(',')`. -/
def splitOnComma : Str → List Str
  | [] => [[]]
  | c :: cs =>
    let r := splitOnComma cs
    if c = ',' then [] :: r
    else
      match r with
      | p :: ps => (c :: p) :: ps
      | [] => [[c]]

/-- `keyword_list = [k.strip() for k in extracted_keywords.split(',') if k.strip()]`. -/
def keyword_list (extracted : Str) : List Str :=
  ((splitOnComma extracted).map pyStrip).filter (fun k => k ≠ [])

/-- The client sidebar's `db_options` mapping. -/
def db_options : List (Str × Str) := [("3D DRAM 특허".toList, "3d_dram".toList)]

/-- `selected_db_id`: the id of the (only) selectable DB entry. -/
def selected_db_id : Str :=
  match db_options with
  | (_, id) :: _ => id
  | [] => []

/-- `os.path.basename` (POSIX form): everything after the last `/`. -/
def basename (p : Str) : Str :=
  p.foldl (fun acc c => if c = '/' then [] else acc ++ [c]) []

/-- The per-document source label:
`os.path.basename(doc['metadata'].get('source', 'N/A'))`. -/
def nameOf (d : SDoc) : Str := basename (d.source.getD "N/A".toList)

/-- The literal `--- Source: ` that opens every context block. -/
def delimHdr : Str := "--- Source: ".toList

/-- The literal ` ---\n` that closes a block's source label. -/
def hdrEnd : Str := " ---\n".toList

/-- The `"\n\n"` joiner between blocks. -/
def blockSep : Str := ['\n', '\n']

/-- One block of `format_docs`:
`f"--- Source: {basename(...)} ---\n{doc['page_content']}"`. -/
def blockOf (d : SDoc) : Str := delimHdr ++ nameOf d ++ hdrEnd ++ d.page_content

/-- Python `"\n\n".join`. -/
def joinBlocks : List Str → Str
  | [] => []
  | [b] => b
  | b :: bs => b ++ blockSep ++ joinBlocks bs

/-- `format_docs` from the final RAG chain. -/
def format_docs (docs : List SDoc) : Str := joinBlocks (docs.map blockOf)

/-- What one client question run produces (the assistant-side outcome). -/
inductive ClientOutcome where
  | answered (text : Str)
  | notFound (detail : Str)
  | failed (err : HErr)
deriving DecidableEq, Repr

/-- Mode-1 empty-result message:
`f"DB에서 '{patent_number}'에 해당하는 특허를 찾지 못했습니다."`. -/
def notFoundMsg (n : Str) : Str :=
  "DB에서 '".toList ++ n ++ "'에 해당하는 특허를 찾지 못했습니다.".toList

/-- Mode-2 empty-result message. -/
def noRelevantMsg : Str := "관련된 특허 문서를 찾지 못했습니다.".toList

/-- Mode 1 (direct patent-number lookup).  Returns the list of search
requests actually POSTed (the retrieval trace) together with the
outcome.  A non-2xx server reply raises through `raise_for_status` and
lands in the outer `except` (`ClientOutcome.failed`). -/
def direct_mode (n : Str) (server : SearchRequest → Except HErr (List SDoc))
    (summarize : Str → Str) : List SearchRequest × ClientOutcome :=
  let payload : SearchRequest := ⟨selected_db_id, [n], 1⟩
  match server payload with
  | .error e => ([payload], .failed e)
  | .ok [] => ([payload], .notFound (notFoundMsg n))
  | .ok (d :: _) => ([payload], .answered (summarize d.page_content))

/-- Mode 2 (research agent): extract keywords, search (the request body
carries no `k_per_keyword`, so the server default 5 applies), then
synthesize over the formatted context. -/
def research_mode (question : Str) (extract : Str → Str)
    (server : SearchRequest → Except HErr (List SDoc))
    (synthesize : Str → Str → Str) : List SearchRequest × ClientOutcome :=
  let kws := keyword_list (extract question)
  let payload : SearchRequest := ⟨selected_db_id, kws, 5⟩
  match server payload with
  | .error e => ([payload], .failed e)
  | .ok [] => ([payload], .notFound noRelevantMsg)
  | .ok (d :: ds) => ([payload], .answered (synthesize (format_docs (d :: ds)) question))

/-- The whole per-question router: regex detection picks the mode. -/
def run_question (q : Str) (extract : Str → Str)
    (server : SearchRequest → Except HErr (List SDoc))
    (summarize : Str → Str) (synthesize : Str → Str → Str) :
    List SearchRequest × ClientOutcome :=
  match patent_search q with
  | some n => direct_mode n server summarize
  | none => research_mode q extract server synthesize

/-! ## Spec-side definitions

These follow the specification's words (not the source) and exist to be
compared with the embedded code. -/

/-- Spec §4.3 merge step, written from the spec's words: walk all
per-keyword result lists in keyword order and keep the first document
seen for each source identifier. -/
def dedupAux (seen : List (Option Str)) : List SDoc → List SDoc
  | [] => []
  | d :: ds =>
    if d.source ∈ seen then dedupAux seen ds
    else d :: dedupAux (d.source :: seen) ds

/-- The DocumentSet the spec says a multi-keyword search returns: the
deduplicated union of the per-keyword lists, first occurrence wins,
in keyword order then rank order. -/
def spec_merged (lists : List (List SDoc)) : List SDoc :=
  dedupAux [] lists.flatten

/-- Claim C3's detection condition, written from the claim's words: a
case-insensitive office code followed by a 4-or-more digit sequence,
optionally interleaved with single whitespace/period/hyphen separators
(zero or more trailing kind-code characters are then allowed, which
constrains nothing about containment).  `interDigits` counts the digits
reachable through such a digit sequence. -/
def interDigitsGo : Str → Nat
  | [] => 0
  | c :: cs =>
    if c.isDigit then interDigitsGo cs + 1
    else if isSepCh c then
      match cs with
      | d :: ds => if d.isDigit then interDigitsGo ds + 1 else 0
      | [] => 0
    else 0

/-- Total digits of the maximal leading digit sequence interleaved with
single separators. -/
def interDigits : Str → Nat
  | [] => 0
  | c :: cs => if c.isDigit then interDigitsGo cs + 1 else 0

/-- Claim C3's pattern, anchored at the head of `s`. -/
def claimMatchAt : Str → Bool
  | a :: b :: r =>
    officeOk a b &&
      (4 ≤ interDigits r ||
        (match r with
         | c :: r2 => isSepCh c && 4 ≤ interDigits r2
         | [] => false))
  | _ => false

/-- Claim C3's condition on a whole question: some position matches. -/
def claimContains : Str → Bool
  | [] => false
  | c :: cs => claimMatchAt (c :: cs) || claimContains cs

/-- Does a single separator followed by a digit come next? -/
def sepThenDigit : Str → Bool
  | c :: d :: _ => isSepCh c && d.isDigit
  | _ => false

/-- Is the first character a digit? -/
def headDigit : Str → Bool
  | [] => false
  | c :: _ => c.isDigit

/-- The amended claim's digit condition after the office code and the
optional first separator: a maximal digit run of length `n` matches if
`n ≥ 5`, or `n ≥ 4` and a single separator followed by at least one more
digit comes right after the run. -/
def amendedCore (r : Str) : Bool :=
  5 ≤ digitCount r ||
    (4 ≤ digitCount r && sepThenDigit (r.drop (digitCount r)))

/-- The amended claim's pattern, anchored at the head of `s`: an office
code, then the digit condition directly or after one separator. -/
def amendedMatchAt : Str → Bool
  | a :: b :: r =>
    officeOk a b &&
      (amendedCore r ||
        (match r with
         | c :: r2 => isSepCh c && amendedCore r2
         | [] => false))
  | _ => false

/-- The amended claim's condition on a whole question. -/
def amendedContains : Str → Bool
  | [] => false
  | c :: cs => amendedMatchAt (c :: cs) || amendedContains cs

/-- The suffix of the regex after `\d{4,}`: `[\s.-]?\d+[A-Z\d]*`, as a
backtracking option list (abbreviates the inner part of `matchAt`). -/
def tail3 (r3 : Str) : List Str :=
  (sepOpt r3).flatMap (fun r4 => (digOpts 1 r4).map kindsDrop)

/-- The suffix of the regex after the first `[\s.-]?`:
`\d{4,}[\s.-]?\d+[A-Z\d]*`, as a backtracking option list. -/
def mid2 (r2 : Str) : List Str :=
  (digOpts 4 r2).flatMap tail3

/-- Boolean list-prefix test (used by the context parser). -/
def isPref : Str → Str → Bool
  | [], _ => true
  | _ :: _, [] => false
  | a :: as, b :: bs => a = b && isPref as bs

/-- Split a string at the first occurrence of `pat`: returns the part
before and the part after the occurrence. -/
def splitFirst (pat : Str) : Str → Option (Str × Str)
  | [] => if isPref pat [] then some ([], []) else none
  | c :: cs =>
    if isPref pat (c :: cs) then some ([], (c :: cs).drop pat.length)
    else (splitFirst pat cs).map (fun pr => (c :: pr.1, pr.2))

/-- Does `pat` occur (as a contiguous substring) in `s`? -/
def occursIn (pat : Str) : Str → Bool
  | [] => isPref pat []
  | c :: cs => isPref pat (c :: cs) || occursIn pat cs

/-- `pat` has no nontrivial border: no proper nonempty suffix of `pat`
is also a prefix of `pat`.  (Such a pattern cannot straddle the
boundary in `a ++ pat ++ b` at a position inside `a`.) -/
def noBorderB (pat : Str) : Bool :=
  (List.range pat.length).all (fun j => j == 0 || !(isPref (pat.drop j) pat))

/-- The joiner-plus-header string that separates consecutive blocks of
`format_docs` output: `"\n\n--- Source: "`. -/
def delimFull : Str := blockSep ++ delimHdr

/-- Blocks of a `format_docs` output, parsed back (the claim's
"splitting the output back on the delimiter").  Fuel-indexed so that it
stays a computable structural recursion; `parse_context` supplies
enough fuel. -/
def parseBlocks : Nat → Str → Option (List (Str × Str))
  | 0, _ => none
  | fuel + 1, r =>
    match splitFirst hdrEnd r with
    | none => none
    | some (name, r2) =>
      match splitFirst delimFull r2 with
      | none => some [(name, r2)]
      | some (content, r3) =>
        match parseBlocks fuel r3 with
        | some rest => some ((name, content) :: rest)
        | none => none

/-- Splitting a context string back on the `--- Source: ... ---`
delimiters into (source label, content) pairs. -/
def parse_context (s : Str) : Option (List (Str × Str)) :=
  if s = [] then some []
  else if isPref delimHdr s then parseBlocks s.length (s.drop delimHdr.length)
  else none

/-- The (source label, content) pair of a document, as the round-trip
claim describes the recovered data. -/
def pairOf (d : SDoc) : Str × Str := (nameOf d, d.page_content)

/-- The tail of a formatted DocumentSet: every later block preceded by
the joiner. -/
def blocksTail : List SDoc → Str
  | [] => []
  | d :: ds => delimFull ++ (nameOf d ++ (hdrEnd ++ (d.page_content ++ blocksTail ds)))

/-! ## Example fixtures (spec §8, Example 3 and variants) -/

/-- A one-letter document whose source identifier and content are the
letter itself. -/
def mkDoc (s : String) : SDoc := ⟨s.toList, some s.toList⟩

def docA : SDoc := mkDoc "A"
def docB : SDoc := mkDoc "B"
def docC : SDoc := mkDoc "C"
def docD : SDoc := mkDoc "D"
def docE : SDoc := mkDoc "E"
def docF : SDoc := mkDoc "F"
def docG : SDoc := mkDoc "G"
def docH : SDoc := mkDoc "H"

/-- Example 3's index: "3D DRAM" retrieves sources A,B,C,D,E and
"thermal via" retrieves C,F,B,G,H. -/
def retrEx3 : RetrFn := fun kw _k =>
  if kw = "3D DRAM".toList then .ok [docA, docB, docC, docD, docE]
  else if kw = "thermal via".toList then .ok [docC, docF, docB, docG, docH]
  else .ok []

/-- A server whose only index is `"core_patents"`, backed by `retrEx3`. -/
def avEx3 : Str → Option RetrFn := fun id =>
  if id = "core_patents".toList then some retrEx3 else none

/-- Example 3's request: both keywords, k = 5. -/
def reqEx3 : SearchRequest :=
  ⟨"core_patents".toList, ["3D DRAM".toList, "thermal via".toList], 5⟩

/-- An index where keyword "k1" retrieves two documents and "k2" one. -/
def retrTwoOne : RetrFn := fun kw _k =>
  if kw = "k1".toList then .ok [docA, docB]
  else if kw = "k2".toList then .ok [docC]
  else .ok []

/-- A server whose only index is `"core_patents"`, backed by
`retrTwoOne`. -/
def avTwoOne : Str → Option RetrFn := fun id =>
  if id = "core_patents".toList then some retrTwoOne else none

/-! ## Theorems -/

instance {ε α : Type} [DecidableEq ε] [DecidableEq α] :
    DecidableEq (Except ε α) := fun a b =>
  match a, b with
  | .error e₁, .error e₂ =>
    if h : e₁ = e₂ then .isTrue (by rw [h])
    else .isFalse (by intro hc; cases hc; exact h rfl)
  | .ok v₁, .ok v₂ =>
    if h : v₁ = v₂ then .isTrue (by rw [h])
    else .isFalse (by intro hc; cases hc; exact h rfl)
  | .error _, .ok _ => .isFalse (by intro hc; cases hc)
  | .ok _, .error _ => .isFalse (by intro hc; cases hc)

/-- Claim C1 (code bug): on the spec's Example 3 input, the endpoint is
supposed to return the deduplicated union [A,B,C,D,E,F,G,H] of the two
per-keyword result lists, but the code builds its response from
`retrieved_docs` — the last keyword's raw top-k list — and returns the
five documents [C,F,B,G,H] instead. -/
theorem c1_code_bug :
    search_by_keywords avEx3 reqEx3 = .ok [docC, docF, docB, docG, docH] ∧
    spec_merged [[docA, docB, docC, docD, docE], [docC, docF, docB, docG, docH]] =
      [docA, docB, docC, docD, docE, docF, docG, docH] ∧
    search_by_keywords avEx3 reqEx3 ≠
      .ok (spec_merged [[docA, docB, docC, docD, docE], [docC, docF, docB, docG, docH]]) := by
  refine ⟨by decide, by decide, by decide⟩

/-- Claim C4 (code bug): with keywords [k1, k2] where k1 retrieves two
documents and k2 one, the returned DocumentSet has a single document —
strictly fewer than the largest single-keyword result set (size 2), so
the claimed lower bound fails on the code. -/
theorem c4_code_bug :
    search_by_keywords avTwoOne ⟨"core_patents".toList, ["k1".toList, "k2".toList], 5⟩ =
      .ok [docC] ∧
    search_by_keywords avTwoOne ⟨"core_patents".toList, ["k1".toList], 5⟩ =
      .ok [docA, docB] ∧
    ([docC].length < [docA, docB].length) := by
  refine ⟨by decide, by decide, by decide⟩

/-- Claim C5 (code bug): appending keyword k2 to [k1] removes docA
(present for the shorter KeywordSet) from the result, because the code
returns only the last keyword's raw result list. -/
theorem c5_code_bug :
    search_by_keywords avTwoOne ⟨"core_patents".toList, ["k1".toList], 5⟩ =
      .ok [docA, docB] ∧
    search_by_keywords avTwoOne ⟨"core_patents".toList, ["k1".toList, "k2".toList], 5⟩ =
      .ok [docC] ∧
    docA ∉ [docC] := by
  refine ⟨by decide, by decide, by decide⟩

/-- Claim C6: determinism.  For a fixed index configuration and a fixed
request (same KeywordSet, same k), two invocations of the search
endpoint return identical results — the same documents in the same
order.  The embedding is a pure function of the request and the index
state, mirroring the source's strictly sequential, nondeterminism-free
keyword loop. -/
theorem c6_deterministic
    (av₁ av₂ : Str → Option RetrFn) (r₁ r₂ : SearchRequest)
    (hav : av₁ = av₂) (hr : r₁ = r₂) :
    search_by_keywords av₁ r₁ = search_by_keywords av₂ r₂ := by
  subst hav; subst hr; rfl

/-- Witness for `c6_deterministic` at a concrete index and request. -/
theorem c6_deterministic_witness :
    search_by_keywords avEx3 reqEx3 = search_by_keywords avEx3 reqEx3 :=
  c6_deterministic avEx3 avEx3 reqEx3 reqEx3 rfl rfl

/-- Claim C2 (counterexample): when keyword extraction returns the empty
string, `keyword_list` is empty, yet the research pipeline still issues
a search request — with `keywords = []` — instead of halting with a
"no keywords extracted" failure.  The trace (first component) lists the
requests actually POSTed. -/
theorem c2_counterexample :
    keyword_list [] = [] ∧
    (research_mode "q".toList (fun _ => []) (fun _ => .ok [])
        (fun _ _ => [])).1 =
      [⟨selected_db_id, [], 5⟩] := by
  refine ⟨rfl, by decide⟩

/-- Claim C2 (amended): the research pipeline performs no emptiness
check at all: for every question and extraction result it issues
exactly one search request, whose keyword list is whatever
`keyword_list` produced — including the empty KeywordSet when the
completion service returns an empty string (or only commas and
whitespace). -/
theorem c2_amended (q : Str) (extract : Str → Str)
    (server : SearchRequest → Except HErr (List SDoc))
    (synthesize : Str → Str → Str) :
    (research_mode q extract server synthesize).1 =
      [⟨selected_db_id, keyword_list (extract q), 5⟩] ∧
    keyword_list [] = [] ∧ keyword_list " , ,, ".toList = [] := by
  refine ⟨?_, rfl, by decide⟩
  dsimp only [research_mode]
  cases hsrv : server ⟨selected_db_id, keyword_list (extract q), 5⟩ with
  | error e => rfl
  | ok docs => cases docs <;> rfl

/-- Claim C3 (counterexample): "US1234" contains an office code followed
by a 4-digit sequence (zero separators, zero kind-code characters), so
by the claim the detector must return it — but `PATENT_NUMBER_REGEX`
demands `\d{4,}` and then a further mandatory `\d+`, so the detector
returns nothing and the question is routed to ResearchSynthesis. -/
theorem c3_counterexample :
    claimContains "US1234".toList = true ∧
    patent_search "US1234".toList = none ∧
    classify_mode "US1234".toList = Mode.researchSynthesis := by
  refine ⟨by decide, by decide, by decide⟩

/-- Bool equality from the equivalence of being true. -/
theorem boolEqOfIff : ∀ a b : Bool, (a = true ↔ b = true) → a = b := by decide

/-- Separator characters are not digits. -/
theorem sep_not_digit (c : Char) (h : isSepCh c = true) : c.isDigit = false := by
  simp only [isSepCh, isWhite, Bool.or_eq_true, decide_eq_true_eq] at h
  have hc : c = ' ' ∨ c = '\t' ∨ c = '\n' ∨ c = '\r' ∨ c = Char.ofNat 11 ∨
      c = Char.ofNat 12 ∨ c = '.' ∨ c = '-' := by tauto
  rcases hc with rfl | rfl | rfl | rfl | rfl | rfl | rfl | rfl <;> decide

/-- Dropping `j` leading digits leaves a digit run shorter by `j`. -/
theorem digitCount_drop (s : Str) : ∀ j, j ≤ digitCount s →
    digitCount (s.drop j) = digitCount s - j := by
  induction s with
  | nil =>
    intro j hj
    simp only [digitCount] at hj
    interval_cases j
    rfl
  | cons c cs ih =>
    intro j hj
    cases j with
    | zero => simp
    | succ i =>
      rw [digitCount] at hj
      by_cases hc : c.isDigit
      · rw [if_pos hc] at hj
        rw [List.drop_succ_cons, ih i (by omega), digitCount, if_pos hc]
        omega
      · rw [if_neg hc] at hj
        exact absurd hj (by omega)

/-- A string starts with a digit exactly when its digit run is
non-empty. -/
theorem headDigit_iff (s : Str) : headDigit s = true ↔ 1 ≤ digitCount s := by
  cases s with
  | nil => simp [headDigit, digitCount]
  | cons c cs =>
    by_cases hc : c.isDigit
    · simp [headDigit, digitCount, hc]
    · simp [headDigit, digitCount, hc]

/-- Right after the maximal digit run there is no digit. -/
theorem headDigit_drop_dc (s : Str) :
    headDigit (s.drop (digitCount s)) = false := by
  induction s with
  | nil => rfl
  | cons c cs ih =>
    by_cases hc : c.isDigit
    · rw [digitCount, if_pos hc, List.drop_succ_cons]
      exact ih
    · rw [digitCount, if_neg hc, List.drop_zero]
      simp [headDigit, hc]

/-- Strictly inside the digit run every suffix starts with a digit. -/
theorem headDigit_drop_lt (s : Str) (j : Nat) (hj : j < digitCount s) :
    headDigit (s.drop j) = true := by
  rw [headDigit_iff, digitCount_drop s j (Nat.le_of_lt hj)]
  omega

/-- `digOpts lo s` is empty exactly when the digit run is too short. -/
theorem digOpts_eq_nil (lo : Nat) (s : Str) :
    digOpts lo s = [] ↔ digitCount s < lo := by
  simp only [digOpts]
  by_cases h : digitCount s < lo
  · simp [h]
  · simp only [h, if_false, iff_false]
    intro hmap
    rw [List.map_eq_nil_iff, List.range_eq_nil] at hmap
    omega

/-- Membership in `digOpts`: exactly the drops of `j` digits for
`lo ≤ j ≤` run length. -/
theorem mem_digOpts (lo : Nat) (s r : Str) :
    r ∈ digOpts lo s ↔ ∃ j, lo ≤ j ∧ j ≤ digitCount s ∧ r = s.drop j := by
  simp only [digOpts]
  by_cases h : digitCount s < lo
  · simp only [h, if_true, List.not_mem_nil, false_iff]
    rintro ⟨j, hlo, hj, _⟩
    omega
  · simp only [h, if_false, List.mem_map, List.mem_range]
    constructor
    · rintro ⟨i, hi, rfl⟩
      exact ⟨digitCount s - i, by omega, by omega, rfl⟩
    · rintro ⟨j, hlo, hj, rfl⟩
      exact ⟨digitCount s - j, by omega, by rw [Nat.sub_sub_self hj]⟩

/-- The options for `[\s.-]?\d+[A-Z\d]*` are non-empty exactly when a
digit comes next, directly or after one separator. -/
theorem tail3_eq_nil (r : Str) :
    tail3 r = [] ↔ (headDigit r || sepThenDigit r) = false := by
  cases r with
  | nil => simp [tail3, sepOpt, digOpts, headDigit, sepThenDigit, digitCount]
  | cons c cs =>
    by_cases hsep : isSepCh c = true
    · have hO : sepOpt (c :: cs) = [cs, c :: cs] := by rw [sepOpt, if_pos hsep]
      have hc0 : digitCount (c :: cs) = 0 := by
        simp [digitCount, sep_not_digit c hsep]
      have h2 : (digOpts 1 (c :: cs)).map kindsDrop = [] := by
        rw [List.map_eq_nil_iff, digOpts_eq_nil, hc0]
        omega
      rw [tail3, hO]
      simp only [List.flatMap_cons, List.flatMap_nil, List.append_nil, h2]
      rw [List.map_eq_nil_iff, digOpts_eq_nil]
      have hhd : headDigit (c :: cs) = false := by
        simp [headDigit, sep_not_digit c hsep]
      rw [hhd, Bool.false_or]
      cases cs with
      | nil => simp [digitCount, sepThenDigit]
      | cons d ds =>
        rw [show sepThenDigit (c :: d :: ds) = (isSepCh c && d.isDigit) from rfl,
          hsep, Bool.true_and]
        by_cases hd : d.isDigit
        · simp [digitCount, hd]
        · simp [digitCount, hd]
    · have hO : sepOpt (c :: cs) = [c :: cs] := by
        rw [sepOpt, if_neg (by simpa using hsep)]
      rw [tail3, hO]
      simp only [List.flatMap_cons, List.flatMap_nil, List.append_nil]
      rw [List.map_eq_nil_iff, digOpts_eq_nil]
      have hst : sepThenDigit (c :: cs) = false := by
        cases cs with
        | nil => rfl
        | cons d ds =>
          rw [show sepThenDigit (c :: d :: ds) = (isSepCh c && d.isDigit) from rfl]
          simp [Bool.eq_false_iff.mpr hsep]
      rw [hst, Bool.or_false]
      by_cases hc : c.isDigit
      · simp [headDigit, digitCount, hc]
      · simp [headDigit, digitCount, hc]

/-- The options for `\d{4,}[\s.-]?\d+[A-Z\d]*` are non-empty exactly
when the amended digit condition holds. -/
theorem mid2_eq_nil (r2 : Str) : mid2 r2 = [] ↔ amendedCore r2 = false := by
  rw [mid2, List.flatMap_eq_nil_iff]
  constructor
  · intro h
    rw [amendedCore, Bool.or_eq_false_iff]
    constructor
    · rw [decide_eq_false_iff_not]
      intro h5
      have hmem : r2.drop 4 ∈ digOpts 4 r2 :=
        (mem_digOpts 4 r2 _).mpr ⟨4, le_refl 4, by omega, rfl⟩
      have := h _ hmem
      rw [tail3_eq_nil, Bool.or_eq_false_iff] at this
      rw [headDigit_drop_lt r2 4 (by omega)] at this
      exact Bool.noConfusion this.1
    · rw [Bool.and_eq_false_iff]
      by_cases h4 : 4 ≤ digitCount r2
      · right
        have hmem : r2.drop (digitCount r2) ∈ digOpts 4 r2 :=
          (mem_digOpts 4 r2 _).mpr ⟨digitCount r2, h4, le_refl _, rfl⟩
        have := h _ hmem
        rw [tail3_eq_nil, Bool.or_eq_false_iff] at this
        exact this.2
      · left
        rw [decide_eq_false_iff_not]
        exact h4
  · intro hcore x hx
    rw [mem_digOpts] at hx
    obtain ⟨j, h4, hj, rfl⟩ := hx
    rw [amendedCore, Bool.or_eq_false_iff, decide_eq_false_iff_not,
      Bool.and_eq_false_iff] at hcore
    have hn : digitCount r2 = 4 := by
      rcases hcore.2 with h4f | _
      · rw [decide_eq_false_iff_not] at h4f
        omega
      · omega
    have hj4 : j = 4 := by omega
    subst hj4
    rw [tail3_eq_nil, Bool.or_eq_false_iff]
    constructor
    · rw [← hn, headDigit_drop_dc]
    · rcases hcore.2 with h4f | hst
      · rw [decide_eq_false_iff_not] at h4f
        omega
      · rw [show (4 : Nat) = digitCount r2 from hn.symm, hst]

/-- `matchAt` succeeds exactly when its backtracking option list is
non-empty. -/
theorem matchAt_isSome_iff (s : Str) :
    (matchAt s).isSome = true ↔
      (officeOpts s).flatMap (fun r1 => (sepOpt r1).flatMap mid2) ≠ [] := by
  show (match (officeOpts s).flatMap (fun r1 => (sepOpt r1).flatMap mid2) with
      | [] => (none : Option Nat)
      | rest :: _ => some (s.length - rest.length)).isSome = true ↔ _
  cases h : (officeOpts s).flatMap (fun r1 => (sepOpt r1).flatMap mid2) with
  | nil => simp
  | cons x xs => simp

/-- Unfolding of `amendedMatchAt` on a two-character-headed string. -/
theorem amendedMatchAt_cons (a b : Char) (r : Str) :
    amendedMatchAt (a :: b :: r) =
      (officeOk a b &&
        (amendedCore r ||
          (match r with
           | c :: r2 => isSepCh c && amendedCore r2
           | [] => false))) := rfl

/-- The regex matches at a position exactly when the amended claim's
pattern holds there. -/
theorem matchAt_isSome (s : Str) : (matchAt s).isSome = amendedMatchAt s := by
  apply boolEqOfIff
  rw [matchAt_isSome_iff]
  cases s with
  | nil => simp [officeOpts, amendedMatchAt]
  | cons a t =>
    cases t with
    | nil => simp [officeOpts, amendedMatchAt]
    | cons b r =>
      by_cases hoff : officeOk a b = true
      · have hOc : officeOpts (a :: b :: r) = [r] := by
          rw [officeOpts, if_pos hoff]
        rw [hOc]
        simp only [List.flatMap_cons, List.flatMap_nil, List.append_nil]
        rw [amendedMatchAt_cons, hoff, Bool.true_and]
        cases r with
        | nil =>
          have hm : mid2 [] = [] := (mid2_eq_nil []).mpr rfl
          simp [sepOpt, hm, amendedCore, digitCount]
        | cons c r2 =>
          by_cases hsep : isSepCh c = true
          · have hS : sepOpt (c :: r2) = [r2, c :: r2] := by
              rw [sepOpt, if_pos hsep]
            rw [hS]
            simp only [List.flatMap_cons, List.flatMap_nil, List.append_nil]
            have hc0 : digitCount (c :: r2) = 0 := by
              simp [digitCount, sep_not_digit c hsep]
            have hcore0 : amendedCore (c :: r2) = false := by
              rw [amendedCore, hc0]
              simp
            have hm : mid2 (c :: r2) = [] := (mid2_eq_nil _).mpr hcore0
            rw [hm, List.append_nil, hcore0, Bool.false_or, hsep, Bool.true_and]
            rw [Ne, mid2_eq_nil, Bool.not_eq_false]
          · have hS : sepOpt (c :: r2) = [c :: r2] := by
              rw [sepOpt, if_neg (by simpa using hsep)]
            rw [hS]
            simp only [List.flatMap_cons, List.flatMap_nil, List.append_nil]
            rw [show (isSepCh c && amendedCore r2) = (false && amendedCore r2) by
                rw [Bool.eq_false_iff.mpr hsep],
              Bool.false_and, Bool.or_false]
            rw [Ne, mid2_eq_nil, Bool.not_eq_false]
      · have hOc : officeOpts (a :: b :: r) = [] := by
          rw [officeOpts, if_neg (by simpa using hoff)]
        rw [hOc]
        rw [amendedMatchAt_cons, Bool.eq_false_iff.mpr hoff, Bool.false_and]
        simp

/-- Leftmost search succeeds exactly when some position satisfies the
amended pattern. -/
theorem patent_search_isSome (s : Str) :
    (patent_search s).isSome = amendedContains s := by
  induction s with
  | nil => rfl
  | cons c cs ih =>
    rw [patent_search, amendedContains]
    have hma := matchAt_isSome (c :: cs)
    cases hm : matchAt (c :: cs) with
    | some len =>
      rw [hm] at hma
      simp only [Option.isSome_some] at hma
      rw [← hma]
      simp
    | none =>
      rw [hm] at hma
      simp only [Option.isSome_none] at hma
      rw [← hma]
      simpa using ih

/-- Claim C3 (amended): the detector succeeds exactly when the question
contains, at some position, a case-insensitive office prefix followed by
an optional single separator and a digit sequence satisfying the
corrected rule — a 4-or-more digit run with at least ONE further digit
after the optional second separator (so at least five digits in total
when contiguous; trailing kind-code characters remain optional).  In
particular "US1234" is not detected while "US12345" and "US1234-5" are;
the leftmost match wins, and the example routes as claimed: "Summarize
US20230012345A1" is DirectLookup with extracted number
"US20230012345A1". -/
theorem c3_amended :
    (∀ s : Str, (patent_search s).isSome = amendedContains s) ∧
    patent_search "Summarize US20230012345A1".toList =
      some "US20230012345A1".toList ∧
    classify_mode "Summarize US20230012345A1".toList = Mode.directLookup ∧
    patent_search "US1234".toList = none ∧
    patent_search "US12345".toList = some "US12345".toList ∧
    patent_search "US1234-5".toList = some "US1234-5".toList ∧
    patent_search "KR11111 then US22222".toList = some "KR11111".toList := by
  refine ⟨patent_search_isSome, by decide, by decide, by decide, by decide,
    by decide, by decide⟩

/-- Claim C7: DirectLookup issues exactly one search request, whose
keyword list is just the detected number and whose per-keyword cap is 1;
an empty DocumentSet yields the NotFound outcome whose detail surrounds
the requested patent number; a non-empty DocumentSet yields Answered
with the summary of the first document's content. -/
theorem c7_direct_lookup :
    (∀ (n : Str) (server : SearchRequest → Except HErr (List SDoc))
       (summarize : Str → Str),
       (direct_mode n server summarize).1 = [⟨selected_db_id, [n], 1⟩]) ∧
    (∀ (n : Str) (server : SearchRequest → Except HErr (List SDoc))
       (summarize : Str → Str),
       server ⟨selected_db_id, [n], 1⟩ = .ok [] →
       (direct_mode n server summarize).2 = .notFound (notFoundMsg n) ∧
         ∃ pre post, notFoundMsg n = pre ++ n ++ post) ∧
    (∀ (n : Str) (server : SearchRequest → Except HErr (List SDoc))
       (summarize : Str → Str) (d : SDoc) (ds : List SDoc),
       server ⟨selected_db_id, [n], 1⟩ = .ok (d :: ds) →
       (direct_mode n server summarize).2 = .answered (summarize d.page_content)) := by
  refine ⟨?_, ?_, ?_⟩
  · intro n server summarize
    dsimp only [direct_mode]
    cases hsrv : server ⟨selected_db_id, [n], 1⟩ with
    | error e => rfl
    | ok docs => cases docs <;> rfl
  · intro n server summarize hsrv
    refine ⟨?_, "DB에서 '".toList, "'에 해당하는 특허를 찾지 못했습니다.".toList, rfl⟩
    dsimp only [direct_mode]
    rw [hsrv]
  · intro n server summarize d ds hsrv
    dsimp only [direct_mode]
    rw [hsrv]

/-- Witness for `c7_direct_lookup`: at the concrete number "US12345",
an empty-result server produces the NotFound outcome with the number
embedded in the detail, and a one-document server produces the
summary answer. -/
theorem c7_direct_lookup_witness :
    (direct_mode "US12345".toList (fun _ => .ok []) id).2 =
      .notFound (notFoundMsg "US12345".toList) ∧
    (direct_mode "US12345".toList (fun _ => .ok [docA]) id).2 =
      .answered docA.page_content :=
  ⟨(c7_direct_lookup.2.1 "US12345".toList (fun _ => .ok []) id rfl).1,
   c7_direct_lookup.2.2 "US12345".toList (fun _ => .ok [docA]) id docA [] rfl⟩

/-- Claim C10: both client modes send the index id "3d_dram", which is
not a key of the server's `db_folders` (whose only key is
"core_patents") — so whatever folders exist on disk and however they
load, every client-issued request takes the index-not-found branch and
every client run ends in the 404 failure outcome. -/
theorem c10_index_mismatch (ex : Str → Bool) (load : Str → RetrFn)
    (n q : Str) (extract : Str → Str) (summarize : Str → Str)
    (synthesize : Str → Str → Str) :
    available_dbs ex load selected_db_id = none ∧
    (direct_mode n (search_by_keywords (available_dbs ex load)) summarize).2 =
      .failed ⟨404, err404msg selected_db_id⟩ ∧
    (research_mode q extract (search_by_keywords (available_dbs ex load))
        synthesize).2 =
      .failed ⟨404, err404msg selected_db_id⟩ := by
  have hav : available_dbs ex load selected_db_id = none := rfl
  refine ⟨hav, ?_, ?_⟩
  · dsimp only [direct_mode]
    rw [show search_by_keywords (available_dbs ex load) ⟨selected_db_id, [n], 1⟩ =
        .error ⟨404, err404msg selected_db_id⟩ from by
      unfold search_by_keywords
      rw [hav]]
  · dsimp only [research_mode]
    rw [show search_by_keywords (available_dbs ex load)
          ⟨selected_db_id, keyword_list (extract q), 5⟩ =
        .error ⟨404, err404msg selected_db_id⟩ from by
      unfold search_by_keywords
      rw [hav]]

/-- Helper: when every keyword before `kw` retrieves successfully and
`kw`'s retrieval raises, the whole keyword loop aborts with `kw`'s
exception, whatever state it had accumulated. -/
theorem searchLoop_abort (retr : RetrFn) (k : Nat) (kws1 : List Str)
    (kw : Str) (kws2 : List Str) (e : Str)
    (hok : ∀ w ∈ kws1, ∃ docs, retr w k = .ok docs)
    (herr : retr kw k = .error e) :
    ∀ all seen last,
      searchLoop retr k (kws1 ++ kw :: kws2) all seen last = .error e := by
  induction kws1 with
  | nil =>
    intro all seen last
    dsimp [searchLoop]
    rw [herr]
  | cons w ws ih =>
    intro all seen last
    obtain ⟨docs, hw⟩ := hok w (by simp)
    dsimp [searchLoop]
    rw [hw]
    exact ih (fun w' hw' => hok w' (by simp [hw'])) _ _ _

/-- Claim C9: failure surface of the search endpoint.  (1) A request
naming an index id absent from the loaded map yields the 404
index-not-found error, independent of any retriever behaviour (no
search happens).  (2) An exception while searching any keyword aborts
the whole batch as a single 500 error carrying the exception's text —
no retry, no partial results.  (3) An error response is never equal to
a successful (possibly empty) documents response, so the caller can
always tell them apart. -/
theorem c9_failure_surface :
    (∀ (available : Str → Option RetrFn) (req : SearchRequest),
       available req.db_id = none →
       search_by_keywords available req = .error ⟨404, err404msg req.db_id⟩) ∧
    (∀ (available : Str → Option RetrFn) (req : SearchRequest) (retr : RetrFn)
       (kws1 : List Str) (kw : Str) (kws2 : List Str) (e : Str),
       available req.db_id = some retr →
       req.keywords = kws1 ++ kw :: kws2 →
       (∀ w ∈ kws1, ∃ docs, retr w req.k_per_keyword = .ok docs) →
       retr kw req.k_per_keyword = .error e →
       search_by_keywords available req = .error ⟨500, err500msg e⟩) ∧
    (∀ (e : HErr) (docs : List SDoc),
       (Except.error e : Except HErr (List SDoc)) ≠ .ok docs) := by
  refine ⟨?_, ?_, ?_⟩
  · intro available req h
    unfold search_by_keywords
    rw [h]
  · intro available req retr kws1 kw kws2 e hav hkeys hok herr
    unfold search_by_keywords
    rw [hav]
    dsimp only
    rw [hkeys, searchLoop_abort retr req.k_per_keyword kws1 kw kws2 e hok herr]
  · intro e docs h
    exact Except.noConfusion h

/-- Witness for `c9_failure_surface`: a concrete unknown-index request
returns the 404 error, and a concrete raising retriever turns into the
500 error with its exception text. -/
theorem c9_failure_surface_witness :
    search_by_keywords (fun _ => none)
        ⟨"core_patents".toList, ["k1".toList], 5⟩ =
      .error ⟨404, err404msg "core_patents".toList⟩ ∧
    search_by_keywords (fun _ => some (fun _ _ => .error "boom".toList))
        ⟨"x".toList, ["k1".toList], 5⟩ =
      .error ⟨500, err500msg "boom".toList⟩ :=
  ⟨c9_failure_surface.1 _ _ rfl,
   c9_failure_surface.2.1 _ _ (fun _ _ => .error "boom".toList)
     [] "k1".toList [] "boom".toList rfl rfl (by simp) rfl⟩

/-! ## Round-trip machinery for the context assembler (claim C8) -/

/-- `isPref p s` holds exactly when `p` is the `p.length`-prefix of `s`. -/
theorem isPref_iff (p s : Str) : isPref p s = true ↔ s.take p.length = p := by
  induction p generalizing s with
  | nil => simp [isPref]
  | cons a as ih =>
    cases s with
    | nil => simp [isPref]
    | cons b bs =>
      simp only [isPref, List.length_cons, List.take_succ_cons,
        Bool.and_eq_true, decide_eq_true_eq, ih, List.cons.injEq]
      constructor
      · rintro ⟨rfl, h⟩; exact ⟨rfl, h⟩
      · rintro ⟨rfl, h⟩; exact ⟨rfl, h⟩

/-- A list is a prefix of itself followed by anything. -/
theorem isPref_append (p t : Str) : isPref p (p ++ t) = true := by
  rw [isPref_iff]
  exact List.take_left p t

/-- A prefix occurrence is an occurrence. -/
theorem occursIn_head (pat x : Str) (h : isPref pat x = true) :
    occursIn pat x = true := by
  cases x with
  | nil => simpa [occursIn] using h
  | cons c cs => simp [occursIn, h]

/-- Localization: a pattern without nontrivial border cannot match
strictly before the marked occurrence in `x ++ pat ++ b` unless it
already occurs inside `x`. -/
theorem no_early (pat x b : Str) (hnb : noBorderB pat = true) (hx : x ≠ [])
    (hocc : occursIn pat x = false) :
    isPref pat (x ++ (pat ++ b)) = false := by
  by_contra hcon
  rw [Bool.not_eq_false, isPref_iff] at hcon
  rcases le_or_lt pat.length x.length with hle | hlt
  · -- the match would lie entirely inside x
    rw [List.take_append_eq_append_take, Nat.sub_eq_zero_of_le hle,
      List.take_zero, List.append_nil] at hcon
    have : occursIn pat x = true :=
      occursIn_head pat x ((isPref_iff _ _).mpr hcon)
    rw [hocc] at this
    exact Bool.noConfusion this
  · -- the match would straddle the boundary: a nontrivial border
    rw [List.take_append_eq_append_take,
      List.take_of_length_le (Nat.le_of_lt hlt)] at hcon
    have hsub : pat.length - x.length ≤ pat.length := Nat.sub_le _ _
    rw [@List.take_append_eq_append_take Char pat b _,
      Nat.sub_eq_zero_of_le hsub, List.take_zero, List.append_nil] at hcon
    -- hcon : x ++ pat.take (pat.length - x.length) = pat
    have hdrop : pat.drop x.length = pat.take (pat.length - x.length) := by
      conv_lhs => rw [← hcon]
      exact List.drop_left x _
    have hbord : isPref (pat.drop x.length) pat = true := by
      rw [isPref_iff, List.length_drop, ← hdrop]
    have hj : x.length ∈ List.range pat.length := List.mem_range.mpr hlt
    have := (List.all_eq_true.mp hnb) x.length hj
    have hx0 : (x.length == 0) = false := by
      cases x with
      | nil => exact absurd rfl hx
      | cons c cs => rfl
    rw [hx0, Bool.false_or, hbord] at this
    exact Bool.noConfusion this

/-- Splitting at the marked occurrence of a border-free pattern that
does not occur in the part before it. -/
theorem splitFirst_clean (pat : Str) (hne : pat ≠ [])
    (hnb : noBorderB pat = true) :
    ∀ (a b : Str), occursIn pat a = false →
      splitFirst pat (a ++ (pat ++ b)) = some (a, b) := by
  intro a
  induction a with
  | nil =>
    intro b _
    rw [List.nil_append]
    cases hp : pat with
    | nil => exact absurd hp hne
    | cons pc pcs =>
      rw [← hp]
      have hcons : pat ++ b = pc :: (pcs ++ b) := by rw [hp]; rfl
      rw [hcons, splitFirst, ← hcons, isPref_append, if_pos rfl,
        List.drop_left pat b]
  | cons c a2 ih =>
    intro b hocc
    have hocc2 : occursIn pat a2 = false := by
      rw [occursIn, Bool.or_eq_false_iff] at hocc
      exact hocc.2
    have hno : isPref pat ((c :: a2) ++ (pat ++ b)) = false :=
      no_early pat (c :: a2) b hnb (by simp) hocc
    rw [List.cons_append, splitFirst, ← List.cons_append, hno]
    simp only [Bool.false_eq_true, if_false]
    rw [ih b hocc2]
    rfl

/-- If a pattern does not occur in `s`, splitting finds nothing. -/
theorem splitFirst_none (pat : Str) :
    ∀ s : Str, occursIn pat s = false → splitFirst pat s = none := by
  intro s
  induction s with
  | nil =>
    intro hocc
    rw [occursIn] at hocc
    rw [splitFirst, hocc]
    rfl
  | cons c cs ih =>
    intro hocc
    rw [occursIn, Bool.or_eq_false_iff] at hocc
    rw [splitFirst, hocc.1]
    simp only [Bool.false_eq_true, if_false]
    rw [ih hocc.2]
    rfl

/-- Joining the blocks of a non-empty DocumentSet: the head block
followed by the joiner-prefixed tail blocks. -/
theorem joinBlocks_map_blockOf (ds : List SDoc) :
    ∀ d : SDoc, joinBlocks ((d :: ds).map blockOf) = blockOf d ++ blocksTail ds := by
  induction ds with
  | nil => intro d; simp [joinBlocks, blocksTail]
  | cons e es ih =>
    intro d
    have he := ih e
    simp only [List.map_cons] at he ⊢
    rw [show joinBlocks (blockOf d :: blockOf e :: List.map blockOf es) =
        blockOf d ++ blockSep ++ joinBlocks (blockOf e :: List.map blockOf es) from rfl, he]
    simp [blocksTail, blockOf, delimFull, List.append_assoc]

/-- Shape of `format_docs` on a non-empty DocumentSet. -/
theorem format_docs_cons (d : SDoc) (ds : List SDoc) :
    format_docs (d :: ds) =
      delimHdr ++ (nameOf d ++ (hdrEnd ++ (d.page_content ++ blocksTail ds))) := by
  rw [format_docs, joinBlocks_map_blockOf ds d, blockOf]
  simp [List.append_assoc]

/-- With enough fuel, parsing the body of a formatted non-empty
DocumentSet recovers its (label, content) pairs — provided no label
contains the label terminator and no content contains the block
delimiter. -/
theorem parseBlocks_format (ds : List SDoc) :
    ∀ (d : SDoc) (fuel : Nat),
      (nameOf d ++ (hdrEnd ++ (d.page_content ++ blocksTail ds))).length ≤ fuel →
      (∀ e ∈ d :: ds, occursIn hdrEnd (nameOf e) = false) →
      (∀ e ∈ d :: ds, occursIn delimFull e.page_content = false) →
      parseBlocks fuel (nameOf d ++ (hdrEnd ++ (d.page_content ++ blocksTail ds))) =
        some ((d :: ds).map pairOf) := by
  induction ds with
  | nil =>
    intro d fuel hfuel hnames hconts
    cases fuel with
    | zero =>
      exfalso
      have h5 : hdrEnd.length = 5 := by decide
      simp only [List.length_append] at hfuel
      omega
    | succ f =>
      rw [parseBlocks,
        splitFirst_clean hdrEnd (by decide) (by decide) (nameOf d) _
          (hnames d (by simp))]
      dsimp only
      have hocc : occursIn delimFull (d.page_content ++ blocksTail []) = false := by
        simpa [blocksTail] using hconts d (by simp)
      rw [splitFirst_none delimFull _ hocc]
      simp [pairOf, blocksTail]
  | cons e es ih =>
    intro d fuel hfuel hnames hconts
    cases fuel with
    | zero =>
      exfalso
      have h5 : hdrEnd.length = 5 := by decide
      simp only [List.length_append] at hfuel
      omega
    | succ f =>
      rw [parseBlocks,
        splitFirst_clean hdrEnd (by decide) (by decide) (nameOf d) _
          (hnames d (by simp))]
      dsimp only
      rw [show blocksTail (e :: es) =
          delimFull ++ (nameOf e ++ (hdrEnd ++ (e.page_content ++ blocksTail es)))
        from rfl]
      rw [splitFirst_clean delimFull (by decide) (by decide) d.page_content _
          (hconts d (by simp))]
      dsimp only
      rw [ih e f ?hf (fun x hx => hnames x (List.mem_cons_of_mem d hx))
          (fun x hx => hconts x (List.mem_cons_of_mem d hx))]
      · rfl
      case hf =>
        have h14 : delimFull.length = 14 := by decide
        simp only [blocksTail, List.length_append] at hfuel ⊢
        omega

/-- Claim C8 (amended, round-trip direction): for every DocumentSet in
which no source label contains the label terminator ` ---\n` and no
document content contains the block delimiter `"\n\n--- Source: "`,
splitting the assembled context back on the delimiters recovers exactly
the original (source label, content) pairs, in order. -/
theorem c8_roundtrip (docs : List SDoc)
    (hnames : ∀ d ∈ docs, occursIn hdrEnd (nameOf d) = false)
    (hconts : ∀ d ∈ docs, occursIn delimFull d.page_content = false) :
    parse_context (format_docs docs) = some (docs.map pairOf) := by
  cases docs with
  | nil => rfl
  | cons d ds =>
    rw [format_docs_cons, parse_context]
    have hne : delimHdr ++ (nameOf d ++ (hdrEnd ++ (d.page_content ++ blocksTail ds))) ≠
        ([] : Str) := by
      intro h
      have hlen := congrArg List.length h
      have h12 : delimHdr.length = 12 := by decide
      simp only [List.length_append, List.length_nil] at hlen
      omega
    rw [if_neg hne, isPref_append, if_pos rfl, List.drop_left]
    apply parseBlocks_format ds d _ _ hnames hconts
    simp only [List.length_append]
    omega

/-- Witness for `c8_roundtrip`: a concrete two-document set (with a
path-shaped source) formats and parses back to its basename/content
pairs. -/
theorem c8_roundtrip_witness :
    parse_context (format_docs [⟨"X".toList, some "dir/a.txt".toList⟩,
        ⟨"Y".toList, some "b".toList⟩]) =
      some [("a.txt".toList, "X".toList), ("b".toList, "Y".toList)] :=
  (c8_roundtrip [⟨"X".toList, some "dir/a.txt".toList⟩,
      ⟨"Y".toList, some "b".toList⟩] (by decide) (by decide)).trans (by decide)

/-- Claim C8 (counterexample): the round-trip fails for a DocumentSet
whose content embeds the delimiter: a single document whose content is
"X\n\n--- Source: b ---\nY" formats to exactly the same context string
as the two documents (a, "X") and (b, "Y"), so no splitting of the
output can recover the original pairs — and the spec splitter indeed
returns the wrong pairs. -/
theorem c8_counterexample :
    format_docs [⟨"X\n\n--- Source: b ---\nY".toList, some "a".toList⟩] =
      format_docs [⟨"X".toList, some "a".toList⟩, ⟨"Y".toList, some "b".toList⟩] ∧
    ([⟨"X\n\n--- Source: b ---\nY".toList, some "a".toList⟩] : List SDoc).map pairOf ≠
      ([⟨"X".toList, some "a".toList⟩, ⟨"Y".toList, some "b".toList⟩] : List SDoc).map pairOf ∧
    parse_context (format_docs [⟨"X\n\n--- Source: b ---\nY".toList, some "a".toList⟩]) ≠
      some (([⟨"X\n\n--- Source: b ---\nY".toList, some "a".toList⟩] : List SDoc).map pairOf) := by
  refine ⟨by decide, by decide, by decide⟩

end PatentRag
